import Mathlib

/-!
Verification of the issue-document knowledge model of the `spec-kit`
repository (`src/jcttech/`): a shallow embedding, in Lean 4, of the
structured-text extraction, hierarchy building, draft lifecycle and corpus
analysis code, together with theorems settling the specified properties.

Conventions of the embedding:
* Python strings are modelled as `List Char` (wrapped in `String` at the
  API boundary); `\s`, `\d` and case folding are modelled over ASCII.
* Python regular expressions used by the source are fixed finite patterns;
  each is embedded as an explicit deterministic scanning function whose
  backtracking behaviour is worked out for that pattern.
* Python floats are modelled as exact rationals; `round(x, 1)` is embedded
  as exact round-half-to-even at one decimal digit.
* The external YAML library is modelled by explicit function parameters
  (an environment record), since it is not code of this repository.
-/

namespace SpecKit

/-- ASCII whitespace, the characters matched by Python's `\s` (ASCII subset)
and stripped by `str.strip()`. -/
def pyWS (c : Char) : Bool :=
  c = ' ' || c = '\t' || c = '\n' || c = '\r' || c = '\x0b' || c = '\x0c'

/-- ASCII decimal digit, Python's `\d` (ASCII subset). -/
def isDig (c : Char) : Bool := '0' ≤ c && c ≤ '9'

def isLowerAlpha (c : Char) : Bool := 'a' ≤ c && c ≤ 'z'

def isUpperAlpha (c : Char) : Bool := 'A' ≤ c && c ≤ 'Z'

/-- ASCII case folding to lowercase, Python `str.lower()` on ASCII. -/
def lowAscii (c : Char) : Char :=
  if isUpperAlpha c then Char.ofNat (c.toNat + 32) else c

/-- ASCII case folding to uppercase, Python `str.upper()` on ASCII. -/
def upAscii (c : Char) : Char :=
  if isLowerAlpha c then Char.ofNat (c.toNat - 32) else c

/-- Python `str.lower()` over a whole string (ASCII model). -/
def lowerStr (l : List Char) : List Char := l.map lowAscii

/-- Python `str.capitalize()`: first character uppercased, the rest
lowercased (ASCII model). -/
def pyCapitalize : List Char → List Char
  | [] => []
  | c :: r => upAscii c :: r.map lowAscii

/-- Python `str.strip()`: remove leading and trailing whitespace. -/
def pyStrip (l : List Char) : List Char :=
  ((l.dropWhile pyWS).reverse.dropWhile pyWS).reverse

/-- Python substring test `needle in hay`. -/
def containsSub (hay needle : List Char) : Bool :=
  if needle.isPrefixOf hay then true
  else
    match hay with
    | [] => false
    | _ :: t => containsSub t needle

/-- Python `"\n".split` inverse direction: split a char list on newlines;
`splitNL []` is `[[]]`, matching `"".split("\n") == [""]`. -/
def splitNL : List Char → List (List Char)
  | [] => [[]]
  | c :: rest =>
    if c = '\n' then [] :: splitNL rest
    else
      match splitNL rest with
      | h :: t => (c :: h) :: t
      | [] => [[c]]

/-- Python `"\n".join` over char-list lines. -/
def joinNL : List (List Char) → List Char
  | [] => []
  | [l] => l
  | l :: rest => l ++ '\n' :: joinNL rest

theorem splitNL_ne_nil (l : List Char) : splitNL l ≠ [] := by
  cases l with
  | nil => simp [splitNL]
  | cons c rest =>
    simp only [splitNL]
    split
    · simp
    · cases splitNL rest <;> simp

theorem joinNL_splitNL (l : List Char) : joinNL (splitNL l) = l := by
  induction l with
  | nil => rfl
  | cons c rest ih =>
    by_cases h : c = '\n'
    · subst h
      simp only [splitNL, if_pos rfl]
      cases hs : splitNL rest with
      | nil => exact absurd hs (splitNL_ne_nil rest)
      | cons h2 t2 =>
        rw [hs] at ih
        simp [joinNL, ih]
    · simp only [splitNL, if_neg h]
      cases hs : splitNL rest with
      | nil => exact absurd hs (splitNL_ne_nil rest)
      | cons h2 t2 =>
        rw [hs] at ih
        cases t2 with
        | nil => simpa [joinNL] using congrArg (c :: ·) ih
        | cons a b => simpa [joinNL] using congrArg (c :: ·) ih

/-! ## `create_short_name` (draft_manager.py lines 64-83)

```python
slug = title.lower()
slug = re.sub(r"[^a-z0-9]+", "-", slug)
slug = slug.strip("-")
slug = slug[:50]
slug = slug.rstrip("-")
```
-/

/-- A character kept by the slug pipeline: matched by `[a-z0-9]`. -/
def slugKeep (c : Char) : Bool := isLowerAlpha c || isDig c

/-- `re.sub(r"[^a-z0-9]+", "-", s)`: every maximal run of non-kept
characters becomes a single dash.  The boolean flag records whether we are
currently inside such a run (so the dash was already emitted). -/
def collapseRuns : Bool → List Char → List Char
  | _, [] => []
  | inRun, c :: rest =>
    if slugKeep c then c :: collapseRuns false rest
    else if inRun then collapseRuns true rest
    else '-' :: collapseRuns true rest

/-- Python `str.rstrip("-")`: remove trailing dashes. -/
def rstripDash : List Char → List Char
  | [] => []
  | c :: rest =>
    match rstripDash rest with
    | [] => if c = '-' then [] else [c]
    | h :: t => c :: h :: t

/-- Python `str.strip("-")`: remove leading and trailing dashes. -/
def stripDash (l : List Char) : List Char :=
  rstripDash (l.dropWhile (· = '-'))

/-- `create_short_name` (draft_manager.py lines 64-83). -/
def createShortName (title : String) : String :=
  String.mk (rstripDash ((stripDash (collapseRuns false (lowerStr title.data))).take 50))

theorem mem_collapseRuns {c : Char} :
    ∀ (b : Bool) (l : List Char), c ∈ collapseRuns b l → slugKeep c = true ∨ c = '-' := by
  intro b l
  induction l generalizing b with
  | nil => simp [collapseRuns]
  | cons a t ih =>
    intro h
    simp only [collapseRuns] at h
    by_cases ha : slugKeep a
    · rw [if_pos ha] at h
      rcases List.mem_cons.mp h with h | h
      · exact Or.inl (h ▸ ha)
      · exact ih false h
    · rw [if_neg ha] at h
      by_cases hb : b
      · subst hb; rw [if_pos rfl] at h; exact ih true h
      · simp only [hb, if_false] at h
        rcases List.mem_cons.mp h with h | h
        · exact Or.inr h
        · exact ih true h

theorem mem_rstripDash {c : Char} : ∀ {l : List Char}, c ∈ rstripDash l → c ∈ l := by
  intro l
  induction l with
  | nil => simp [rstripDash]
  | cons a t ih =>
    intro h
    simp only [rstripDash] at h
    cases hr : rstripDash t with
    | nil =>
      rw [hr] at h
      by_cases ha : a = '-'
      · rw [if_pos ha] at h; simp at h
      · rw [if_neg ha] at h
        simp at h
        simp [h]
    | cons x y =>
      rw [hr] at h
      rcases List.mem_cons.mp h with h | h
      · simp [h]
      · exact List.mem_cons_of_mem a (ih (hr ▸ h))

theorem length_rstripDash : ∀ (l : List Char), (rstripDash l).length ≤ l.length := by
  intro l
  induction l with
  | nil => simp [rstripDash]
  | cons a t ih =>
    simp only [rstripDash]
    cases hr : rstripDash t with
    | nil =>
      by_cases ha : a = '-' <;> simp [ha, List.length_cons]
    | cons x y =>
      rw [hr] at ih
      simp only [List.length_cons] at ih ⊢
      omega

theorem head?_rstripDash {c : Char} :
    ∀ {l : List Char}, (rstripDash l).head? = some c → l.head? = some c := by
  intro l
  cases l with
  | nil => simp [rstripDash]
  | cons a t =>
    intro h
    simp only [rstripDash] at h
    cases hr : rstripDash t with
    | nil =>
      rw [hr] at h
      by_cases ha : a = '-'
      · rw [if_pos ha] at h; simp at h
      · rw [if_neg ha] at h; simp at h; simp [h]
    | cons x y => rw [hr] at h; simp at h; simp [h]

theorem getLast?_rstripDash {c : Char} :
    ∀ {l : List Char}, (rstripDash l).getLast? = some c → c ≠ '-' := by
  intro l
  induction l with
  | nil => simp [rstripDash]
  | cons a t ih =>
    intro h
    simp only [rstripDash] at h
    cases hr : rstripDash t with
    | nil =>
      rw [hr] at h
      by_cases ha : a = '-'
      · rw [if_pos ha] at h; simp at h
      · rw [if_neg ha] at h
        simp at h
        exact h ▸ ha
    | cons x y =>
      rw [hr] at h
      rw [List.getLast?_cons_cons] at h
      exact ih (hr ▸ h)

theorem head?_dropWhileDash {c : Char} :
    ∀ {l : List Char}, (l.dropWhile (· = '-')).head? = some c → c ≠ '-' := by
  intro l
  induction l with
  | nil => simp [List.dropWhile]
  | cons a t ih =>
    intro h
    rw [List.dropWhile_cons] at h
    by_cases ha : a = '-'
    · simp only [ha] at h
      simp at h
      exact ih h
    · simp only [decide_eq_true_eq, if_neg ha] at h
      simp at h
      exact h ▸ ha

theorem head?_take {l : List Char} {n : ℕ} {c : Char}
    (h : (l.take n).head? = some c) : l.head? = some c := by
  cases l <;> cases n <;> simp_all

theorem collapseRuns_allDash {l : List Char} (hl : ∀ c ∈ l, slugKeep c = false) :
    collapseRuns true l = [] ∧
      collapseRuns false l = if l = [] then [] else ['-'] := by
  induction l with
  | nil => simp [collapseRuns]
  | cons a t ih =>
    have ha : slugKeep a = false := hl a (List.mem_cons_self a t)
    have ht : ∀ c ∈ t, slugKeep c = false := fun c hc => hl c (List.mem_cons_of_mem a hc)
    have ih' := ih ht
    constructor
    · simp [collapseRuns, ha, ih'.1]
    · simp [collapseRuns, ha, ih'.1]

theorem mem_dropWhileDash {c : Char} {p : Char → Bool} :
    ∀ {l : List Char}, c ∈ l.dropWhile p → c ∈ l := by
  intro l
  induction l with
  | nil => simp [List.dropWhile]
  | cons a t ih =>
    intro h
    rw [List.dropWhile_cons] at h
    split at h
    · exact List.mem_cons_of_mem a (ih h)
    · exact h

/-- C8: for every input title, the slug produced by `create_short_name` is at
most 50 characters long, consists only of lowercase letters, digits and the
dash separator, has no leading or trailing dash, and a title containing no
alphanumeric characters yields the empty string. -/
theorem createShortName_slug_props (title : String) :
    (createShortName title).length ≤ 50 ∧
    (∀ c ∈ (createShortName title).data, slugKeep c = true ∨ c = '-') ∧
    (∀ c, (createShortName title).data.head? = some c → c ≠ '-') ∧
    (∀ c, (createShortName title).data.getLast? = some c → c ≠ '-') ∧
    ((∀ c ∈ title.data, slugKeep (lowAscii c) = false) → createShortName title = "") := by
  refine ⟨?_, ?_, ?_, ?_, ?_⟩
  · show (rstripDash ((stripDash (collapseRuns false (lowerStr title.data))).take 50)).length ≤ 50
    calc (rstripDash ((stripDash (collapseRuns false (lowerStr title.data))).take 50)).length
        ≤ ((stripDash (collapseRuns false (lowerStr title.data))).take 50).length :=
          length_rstripDash _
      _ ≤ 50 := List.length_take_le _ _
  · intro c hc
    have h1 : c ∈ (stripDash (collapseRuns false (lowerStr title.data))).take 50 :=
      mem_rstripDash hc
    have h2 : c ∈ stripDash (collapseRuns false (lowerStr title.data)) :=
      List.take_subset _ _ h1
    have h3 : c ∈ (collapseRuns false (lowerStr title.data)).dropWhile (· = '-') :=
      mem_rstripDash h2
    have h4 : c ∈ collapseRuns false (lowerStr title.data) := mem_dropWhileDash h3
    exact mem_collapseRuns false _ h4
  · intro c hc
    have h1 := head?_rstripDash hc
    have h2 := head?_take h1
    have h3 := head?_rstripDash h2
    exact head?_dropWhileDash h3
  · intro c hc
    exact getLast?_rstripDash hc
  · intro hall
    have hall' : ∀ c ∈ lowerStr title.data, slugKeep c = false := by
      intro c hc
      rcases List.mem_map.mp hc with ⟨a, ha, rfl⟩
      exact hall a ha
    have hc := (collapseRuns_allDash hall').2
    show String.mk (rstripDash ((stripDash (collapseRuns false (lowerStr title.data))).take 50)) = ""
    by_cases hnil : lowerStr title.data = []
    · rw [hc, if_pos hnil]
      rfl
    · rw [hc, if_neg hnil]
      rfl

/-- Witness for `createShortName_slug_props` at concrete inputs. -/
theorem createShortName_slug_props_witness :
    (∀ c ∈ ("?!?" : String).data, slugKeep (lowAscii c) = false) ∧
      createShortName "?!?" = "" :=
  ⟨by decide, (createShortName_slug_props "?!?").2.2.2.2 (by decide)⟩

/-! ## Story task checkboxes (story_generator.py lines 220-288)

The regexes `\s*-\s*\[[ ]\]`, `\s*-\s*\[[xX]\]` and `\s*-\s*\[[ xX]\]` are
applied with `re.match` (anchored at the start of a line).  Since `-` and `[`
are not whitespace, their backtracking is deterministic: skip whitespace,
expect `-`, skip whitespace, expect `[`, one marker character, `]`. -/

/-- Deterministic scan of a line for a leading checkbox; returns the marker
character between the brackets, if the line starts (modulo whitespace) with
`- [c]`. -/
def cbScan (l : List Char) : Option Char :=
  match l.dropWhile pyWS with
  | '-' :: r =>
    match r.dropWhile pyWS with
    | '[' :: c :: ']' :: _ => some c
    | _ => none
  | _ => none

/-- Line matches `re.match(r"\s*-\s*\[[ ]\]", line)`. -/
def isUncheckedLine (l : List Char) : Bool := decide (cbScan l = some ' ')

/-- Line matches `re.match(r"\s*-\s*\[[xX]\]", line)`. -/
def isCheckedLine (l : List Char) : Bool :=
  decide (cbScan l = some 'x') || decide (cbScan l = some 'X')

/-- Line matches `re.match(r"\s*-\s*\[[ xX]\]", line)`. -/
def isTaskLine (l : List Char) : Bool :=
  decide (cbScan l = some ' ') || decide (cbScan l = some 'x') ||
    decide (cbScan l = some 'X')

/-- The `(total, completed)` accumulation of `count_story_tasks`
(story_generator.py lines 252-275). -/
def countTasks : List (List Char) → ℕ × ℕ
  | [] => (0, 0)
  | l :: rest =>
    let p := countTasks rest
    if isUncheckedLine l then (p.1 + 1, p.2)
    else if isCheckedLine l then (p.1 + 1, p.2 + 1)
    else p

structure TaskCounts where
  total : ℕ
  completed : ℕ
  remaining : ℕ
deriving Repr, DecidableEq

/-- `count_story_tasks` (story_generator.py lines 252-275). -/
def countStoryTasks (body : String) : TaskCounts :=
  let p := countTasks (splitNL body.data)
  { total := p.1, completed := p.2, remaining := p.1 - p.2 }

/-- `is_story_complete` (story_generator.py lines 278-288). -/
def isStoryComplete (body : String) : Bool :=
  let c := countStoryTasks body
  decide (c.total > 0) && decide (c.remaining = 0)

/-- `re.sub(r"\[[ ]\]", "[x]", line)`: replace every occurrence of
`[ ]` (left to right, non-overlapping) by `[x]`. -/
def subUnchecked : List Char → List Char
  | '[' :: ' ' :: ']' :: rest => '[' :: 'x' :: ']' :: subUnchecked rest
  | c :: rest => c :: subUnchecked rest
  | [] => []

/-- `re.sub(r"\[[xX]\]", "[ ]", line)`: replace every occurrence of
`[x]` or `[X]` by `[ ]`. -/
def subChecked : List Char → List Char
  | '[' :: 'x' :: ']' :: rest => '[' :: ' ' :: ']' :: subChecked rest
  | '[' :: 'X' :: ']' :: rest => '[' :: ' ' :: ']' :: subChecked rest
  | c :: rest => c :: subChecked rest
  | [] => []

/-- The single-line rewrite `update_story_task_status` applies to the
selected task line. -/
def applySub (completed : Bool) (l : List Char) : List Char :=
  if completed then subUnchecked l else subChecked l

/-- The line loop of `update_story_task_status` (story_generator.py lines
235-249): `target` is `task_index`, `cnt` the running `task_count`. -/
def updateLines (completed : Bool) (target : ℤ) : ℤ → List (List Char) → List (List Char)
  | _, [] => []
  | cnt, l :: rest =>
    if isTaskLine l then
      if cnt = target then applySub completed l :: rest
      else l :: updateLines completed target (cnt + 1) rest
    else l :: updateLines completed target cnt rest

/-- `update_story_task_status` (story_generator.py lines 220-249). -/
def updateStoryTaskStatus (body : String) (taskIndex : ℤ) (completed : Bool) : String :=
  String.mk (joinNL (updateLines completed taskIndex 0 (splitNL body.data)))

/-- The position (index into the line list) of the `k`-th checkbox line,
`none` when `k` is negative or there are fewer than `k + 1` checkbox lines. -/
def nthTaskPos : List (List Char) → ℤ → Option ℕ
  | [], _ => none
  | l :: rest, k =>
    if isTaskLine l then
      if k = 0 then some 0
      else (nthTaskPos rest (k - 1)).map (· + 1)
    else (nthTaskPos rest k).map (· + 1)

theorem updateLines_spec (completed : Bool) :
    ∀ (ls : List (List Char)) (target cnt : ℤ),
      (match nthTaskPos ls (target - cnt) with
       | some p => updateLines completed target cnt ls =
           ls.set p (applySub completed (ls.getD p []))
       | none => updateLines completed target cnt ls = ls) := by
  intro ls
  induction ls with
  | nil => intro target cnt; simp [nthTaskPos, updateLines]
  | cons l rest ih =>
    intro target cnt
    by_cases ht : isTaskLine l
    · by_cases hz : target - cnt = 0
      · have hct : cnt = target := by omega
        simp [nthTaskPos, ht, hz, updateLines, hct]
      · have hct : ¬ cnt = target := by omega
        have ih' := ih target (cnt + 1)
        have hk : target - (cnt + 1) = target - cnt - 1 := by ring
        rw [hk] at ih'
        simp only [nthTaskPos, ht, if_true, hz, if_false, updateLines, if_neg hct]
        cases hp : nthTaskPos rest (target - cnt - 1) with
        | some p =>
          rw [hp] at ih'
          simp [Option.map_some, ih']
        | none =>
          rw [hp] at ih'
          simp [Option.map_none, ih']
    · have ih' := ih target cnt
      simp only [nthTaskPos, ht, if_false, updateLines]
      cases hp : nthTaskPos rest (target - cnt) with
      | some p =>
        rw [hp] at ih'
        simp [Option.map_some, ih']
      | none =>
        rw [hp] at ih'
        simp [Option.map_none, ih']

/-- C9 (amended): `update_story_task_status` changes at most the single line
holding the `task_index`-th checkbox item, rewriting every checkbox-marker
occurrence in that line (`[ ]` to `[x]` when completing, `[x]`/`[X]` to
`[ ]` when un-completing), and leaves every other line unchanged; when
`task_index` is negative or past the last checkbox the entire body is
returned unchanged. -/
theorem updateStoryTaskStatus_frame (body : String) (taskIndex : ℤ) (completed : Bool) :
    (match nthTaskPos (splitNL body.data) taskIndex with
     | some p => updateStoryTaskStatus body taskIndex completed =
         String.mk (joinNL ((splitNL body.data).set p
           (applySub completed ((splitNL body.data).getD p []))))
     | none => updateStoryTaskStatus body taskIndex completed = body) := by
  have h := updateLines_spec completed (splitNL body.data) taskIndex 0
  rw [sub_zero] at h
  cases hp : nthTaskPos (splitNL body.data) taskIndex with
  | some p =>
    rw [hp] at h
    simp only [updateStoryTaskStatus, h]
  | none =>
    rw [hp] at h
    simp only [updateStoryTaskStatus, h, joinNL_splitNL]

/-- C9 counterexample to the claim as stated: completing the 0th task of a
line whose task text itself contains `[ ]` rewrites that inner occurrence
too, not only the checkbox marker. -/
theorem updateStoryTaskStatus_inner_rewrite :
    updateStoryTaskStatus "- [ ] task [ ] note" 0 true = "- [x] task [x] note" ∧
      ("- [x] task [x] note" : String) ≠ "- [x] task [ ] note" := by
  constructor
  · rfl
  · decide

theorem countTasks_spec (ls : List (List Char)) :
    (countTasks ls).1 = ls.countP isTaskLine ∧
      (countTasks ls).2 = ls.countP isCheckedLine := by
  induction ls with
  | nil => simp [countTasks]
  | cons l rest ih =>
    by_cases hu : isUncheckedLine l
    · have ht : isTaskLine l = true := by
        have : cbScan l = some ' ' := of_decide_eq_true hu
        simp [isTaskLine, this]
      have hc : isCheckedLine l = false := by
        have h1 : cbScan l = some ' ' := of_decide_eq_true hu
        simp [isCheckedLine, h1]
      simp [countTasks, hu, List.countP_cons, ht, hc, ih.1, ih.2]
    · by_cases hck : isCheckedLine l
      · have ht : isTaskLine l = true := by
          simp only [isCheckedLine, Bool.or_eq_true] at hck
          rcases hck with h1 | h1 <;>
            simp [isTaskLine, of_decide_eq_true h1]
        simp [countTasks, hu, hck, List.countP_cons, ht, ih.1, ih.2]
      · have ht : isTaskLine l = false := by
          simp only [isUncheckedLine, decide_eq_true_eq] at hu
          simp only [isCheckedLine, Bool.or_eq_true, decide_eq_true_eq] at hck
          push_neg at hck
          simp [isTaskLine, hu, hck.1, hck.2]
        simp [countTasks, hu, hck, List.countP_cons, ht, ih.1, ih.2]

theorem checked_imp_task {l : List Char} (h : isCheckedLine l = true) :
    isTaskLine l = true := by
  simp only [isCheckedLine, Bool.or_eq_true] at h
  rcases h with h1 | h1 <;> simp [isTaskLine, of_decide_eq_true h1]

theorem countTask_eq_countChecked_iff (ls : List (List Char)) :
    (ls.countP isTaskLine = ls.countP isCheckedLine ↔
      ∀ l ∈ ls, isTaskLine l = true → isCheckedLine l = true) := by
  induction ls with
  | nil => simp
  | cons l rest ih =>
    have hmono : rest.countP isCheckedLine ≤ rest.countP isTaskLine :=
      List.countP_mono_left (fun x _ hx => checked_imp_task hx)
    by_cases ht : isTaskLine l
    · by_cases hc : isCheckedLine l
      · simp only [List.countP_cons, ht, hc, if_true]
        constructor
        · intro h
          intro x hx hxt
          rcases List.mem_cons.mp hx with rfl | hx'
          · exact hc
          · exact (ih.mp (by omega)) x hx' hxt
        · intro h
          have := ih.mpr (fun x hx hxt => h x (List.mem_cons_of_mem l hx) hxt)
          omega
      · simp [List.countP_cons, ht, hc]
        omega
    · have hc : isCheckedLine l = false := by
        by_contra hcc
        simp only [Bool.not_eq_false] at hcc
        exact ht (checked_imp_task hcc)
      simp [List.countP_cons, ht, hc]
      exact ih

/-- C10: `is_story_complete` returns `true` exactly when the body contains at
least one task checkbox line and every task checkbox line is checked; in
particular a body with zero checkboxes is not complete. -/
theorem isStoryComplete_iff (body : String) :
    isStoryComplete body = true ↔
      ((∃ l ∈ splitNL body.data, isTaskLine l = true) ∧
        ∀ l ∈ splitNL body.data, isTaskLine l = true → isCheckedLine l = true) := by
  have hs := countTasks_spec (splitNL body.data)
  have hmono : (splitNL body.data).countP isCheckedLine ≤
      (splitNL body.data).countP isTaskLine :=
    List.countP_mono_left (fun x _ hx => checked_imp_task hx)
  simp only [isStoryComplete, countStoryTasks, Bool.and_eq_true, decide_eq_true_eq]
  rw [hs.1, hs.2]
  constructor
  · rintro ⟨hpos, hrem⟩
    refine ⟨List.countP_pos_iff.mp hpos, ?_⟩
    exact (countTask_eq_countChecked_iff (splitNL body.data)).mp (by omega)
  · rintro ⟨hex, hall⟩
    have heq := (countTask_eq_countChecked_iff (splitNL body.data)).mpr hall
    exact ⟨List.countP_pos_iff.mpr hex, by omega⟩

/-! ## Parent extraction and issue classification (issue_index.py lines 156-243)

`_extract_parent_number` runs `re.search(r"LABEL:\s*#(\d+)", body, re.IGNORECASE)`
for five literal labels in a fixed priority order.  `re.search` yields the
leftmost match; at a given position the pattern is deterministic (the literal
label, then a whitespace run, then `#`, then a maximal nonempty digit run). -/

/-- Case-insensitively strip `label` (given lowercase) from the front of a
char list, returning the remainder. -/
def icStripLabel : List Char → List Char → Option (List Char)
  | [], cs => some cs
  | _ :: _, [] => none
  | a :: lt, c :: ct => if lowAscii c = a then icStripLabel lt ct else none

/-- Decimal value of a digit run, Python `int(...)`. -/
def decVal (ds : List Char) : ℕ := ds.foldl (fun a c => a * 10 + (c.toNat - 48)) 0

/-- Try `LABEL:\s*#(\d+)` anchored at the head of `cs`. -/
def matchPatAt (label cs : List Char) : Option ℕ :=
  match icStripLabel label cs with
  | none => none
  | some rest =>
    match rest.dropWhile pyWS with
    | '#' :: r3 =>
      let ds := r3.takeWhile isDig
      if ds.isEmpty then none else some (decVal ds)
    | _ => none

/-- `re.search` of `LABEL:\s*#(\d+)`: leftmost match wins. -/
def searchPat (label : List Char) : List Char → Option ℕ
  | [] => matchPatAt label []
  | c :: t =>
    match matchPatAt label (c :: t) with
    | some n => some n
    | none => searchPat label t

/-- The fixed priority list of `_extract_parent_number`
(issue_index.py lines 230-236). -/
def patLabels : List (List Char) :=
  ["parent epic:".data, "parent spec:".data, "parent story:".data,
   "related issue:".data, "parent:".data]

def firstMatch : List (List Char) → List Char → Option ℕ
  | [], _ => none
  | lab :: rest, cs =>
    match searchPat lab cs with
    | some n => some n
    | none => firstMatch rest cs

/-- `_extract_parent_number` (issue_index.py lines 220-243). -/
def extractParentNumber (body : String) : Option ℕ :=
  firstMatch patLabels body.data

/-- Issue record as supplied by the issue-fetch collaborator; label objects
are modelled already normalized to their name strings. -/
structure Issue where
  number : ℕ
  title : String
  body : String
  labels : List String
  state : String
deriving Repr, DecidableEq

/-- The per-label classification step of `_detect_issue_type`
(issue_index.py lines 191-202). -/
def labelType (lab : List Char) : Option String :=
  let ll := lowerStr lab
  if containsSub ll "epic".data || ll == "type:epic".data then some "epic"
  else if containsSub ll "spec".data || ll == "type:spec".data then some "spec"
  else if containsSub ll "story".data || ll == "type:story".data then some "story"
  else if containsSub ll "task".data || ll == "type:task".data then some "task"
  else if containsSub ll "bug".data || ll == "type:bug".data then some "bug"
  else none

def firstLabelType : List String → Option String
  | [] => none
  | lab :: rest =>
    match labelType lab.data with
    | some t => some t
    | none => firstLabelType rest

/-- The title-prefix fallback of `_detect_issue_type`
(issue_index.py lines 205-215). -/
def titleType (title : List Char) : Option String :=
  let tl := lowerStr title
  if "[epic]".data.isPrefixOf tl || "epic:".data.isPrefixOf tl then some "epic"
  else if "[spec]".data.isPrefixOf tl || "spec:".data.isPrefixOf tl then some "spec"
  else if "[story]".data.isPrefixOf tl || "story:".data.isPrefixOf tl then some "story"
  else if "[task]".data.isPrefixOf tl || "task:".data.isPrefixOf tl then some "task"
  else if "[bug]".data.isPrefixOf tl || "bug:".data.isPrefixOf tl then some "bug"
  else none

/-- `_detect_issue_type` (issue_index.py lines 186-217). -/
def detectIssueType (i : Issue) : String :=
  match firstLabelType i.labels with
  | some t => t
  | none =>
    match titleType i.title.data with
    | some t => t
    | none => "unknown"

/-! ## Hierarchy construction (issue_index.py lines 156-183, 402-416)

`build_hierarchy_from_issues` keys `issue_map` by issue number (later
duplicates overwrite earlier ones) and appends each issue with a resolved,
truthy, known parent number to that map entry's `_children` list; epics
without such a parent become roots.  The embedding is index-based so that
duplicate numbers are modelled exactly: children are attached to the *last*
index carrying the parent number. -/

def issueNumbers (issues : List Issue) : List ℕ := issues.map Issue.number

/-- The parent an issue is actually attached under: the extracted number if
it is truthy (`parent_num and ...`) and present in `issue_map`. -/
def attachedParent (issues : List Issue) (i : Issue) : Option ℕ :=
  match extractParentNumber i.body with
  | some p => if p ≠ 0 ∧ p ∈ issueNumbers issues then some p else none
  | none => none

/-- Index of the `issue_map` entry for number `n`: the last index holding
that number. -/
def lastIdxOf (issues : List Issue) (n : ℕ) : Option ℕ :=
  ((List.range issues.length).filter
    (fun j => (issues.get? j).map Issue.number == some n)).getLast?

/-- The index of the parent object that issue `j` is appended under. -/
def attachedTo (issues : List Issue) (j : ℕ) : Option ℕ :=
  match issues.get? j with
  | none => none
  | some i =>
    match attachedParent issues i with
    | none => none
    | some p => lastIdxOf issues p

/-- The `_children` list of the issue at index `i` (as indices, in
second-pass order). -/
def childrenIdx (issues : List Issue) (i : ℕ) : List ℕ :=
  (List.range issues.length).filter (fun j => attachedTo issues j == some i)

/-- Indices appended to `hierarchy["epics"]`. -/
def rootsIdx (issues : List Issue) : List ℕ :=
  (List.range issues.length).filter (fun j =>
    match issues.get? j with
    | some i => attachedParent issues i == none && detectIssueType i == "epic"
    | none => false)

/-- Iterated parent pointer: `iterUp k j` follows `attachedTo` for `k`
steps starting at index `j`. -/
def iterUp (issues : List Issue) : ℕ → ℕ → Option ℕ
  | 0, j => some j
  | k + 1, j =>
    match attachedTo issues j with
    | none => none
    | some p => iterUp issues k p

/-- Sum a fallible count over a list, failing if any element fails. -/
def omap (f : ℕ → Option ℕ) : List ℕ → Option ℕ
  | [] => some 0
  | x :: t =>
    match f x, omap f t with
    | some a, some b => some (a + b)
    | _, _ => none

/-- `_count_children` (issue_index.py lines 411-416) with explicit recursion
fuel: `none` models the recursion not completing within `fuel` nested
levels. -/
def countChildren (issues : List Issue) : ℕ → ℕ → Option ℕ
  | 0, _ => none
  | fuel + 1, i =>
    match omap (countChildren issues fuel) (childrenIdx issues i) with
    | some s => some ((childrenIdx issues i).length + s)
    | none => none

/-! ## Requirements extraction (issue_index.py lines 590-627)

`extract_requirements_from_spec` finds the Requirements section with
`re.search(r"##\s*Requirements\s*\n(.*?)(?=\n##\s+[A-Z]|\Z)", body,
re.DOTALL | re.IGNORECASE)` and counts checkbox items inside it with
`re.finditer(r"^\s*-\s*\[[ xX]?\]\s*(.+)$", section, re.MULTILINE)`.
Both patterns' backtracking is embedded exactly; notably `\s` crosses
newlines, so a bare checkbox with no text on its own line absorbs the next
non-blank line, and `\s*\n` after the heading consumes the whitespace run
through its last newline. -/

def isAsciiLetter (c : Char) : Bool := isLowerAlpha c || isUpperAlpha c

/-- Try `##\s*Requirements\s*\n` anchored at the head; returns the text
following the matched heading. -/
def matchReqHeaderAt (cs : List Char) : Option (List Char) :=
  match cs with
  | '#' :: '#' :: r1 =>
    match icStripLabel "requirements".data (r1.dropWhile pyWS) with
    | none => none
    | some r3 =>
      let run := r3.takeWhile pyWS
      let rest := r3.drop run.length
      if run.contains '\n' then
        some ((run.reverse.takeWhile (fun c => !(c == '\n'))).reverse ++ rest)
      else none
  | _ => none

/-- Leftmost `re.search` for the Requirements heading. -/
def searchReqHeader : List Char → Option (List Char)
  | [] => none
  | c :: t =>
    match matchReqHeaderAt (c :: t) with
    | some sec => some sec
    | none => searchReqHeader t

/-- The lookahead `\n##\s+[A-Z]` (with `re.IGNORECASE`, so any ASCII
letter) holds at this position. -/
def isSecEnd (cs : List Char) : Bool :=
  match cs with
  | '\n' :: '#' :: '#' :: r =>
    match r with
    | c :: _ =>
      pyWS c &&
        (match r.dropWhile pyWS with
         | d :: _ => isAsciiLetter d
         | [] => false)
    | [] => false
  | _ => false

/-- The lazy capture `(.*?)` up to the first section-end lookahead or end
of text. -/
def takeUntilSecEnd : List Char → List Char
  | [] => []
  | c :: t => if isSecEnd (c :: t) then [] else c :: takeUntilSecEnd t

/-- The Requirements section body (`req_match.group(1)`), if any. -/
def reqSection (body : List Char) : Option (List Char) :=
  (searchReqHeader body).map takeUntilSecEnd

/-- The `\s*(.+)$` tail of the item pattern after the checkbox brackets:
returns the remainder of the text after the match end, or `none` when no
capturable character exists. -/
def reqItemTail (r4 : List Char) : Option (List Char) :=
  let run := r4.takeWhile pyWS
  let tail := r4.drop run.length
  match tail with
  | _ :: _ => some (tail.dropWhile (fun c => !(c == '\n')))
  | [] =>
    if run.any (fun c => !(c == '\n')) then
      some (run.reverse.takeWhile (fun c => c == '\n')).reverse
    else none

/-- Try `^\s*-\s*\[[ xX]?\]\s*(.+)$` at a line-start position; returns the
remainder after the match end. -/
def matchReqItemAt (cs : List Char) : Option (List Char) :=
  match cs.dropWhile pyWS with
  | '-' :: r2 =>
    match r2.dropWhile pyWS with
    | '[' :: rest =>
      match rest with
      | ']' :: r4 => reqItemTail r4
      | m :: ']' :: r4 =>
        if m = ' ' || m = 'x' || m = 'X' then reqItemTail r4 else none
      | _ => none
    | _ => none
  | _ => none

/-- The `re.finditer` count of requirement items over the section: scan
left to right, attempting the anchored pattern at each line start and
resuming after each match.  The fuel argument only bounds the recursion;
each step consumes at least one character, so `length + 1` fuel is always
sufficient (see `matchReqItemAt_length`, `countReqItemsF_fuel`). -/
def countReqItemsF : ℕ → Bool → List Char → ℕ
  | 0, _, _ => 0
  | _ + 1, _, [] => 0
  | fuel + 1, atStart, c :: t =>
    if atStart then
      match matchReqItemAt (c :: t) with
      | some rem => 1 + countReqItemsF fuel false rem
      | none => countReqItemsF fuel (c == '\n') t
    else countReqItemsF fuel (c == '\n') t

/-- Number of requirements `extract_requirements_from_spec` returns. -/
def countRequirements (body : String) : ℕ :=
  match reqSection body.data with
  | none => 0
  | some sec => countReqItemsF (sec.length + 1) true sec

/-! ## Coverage analysis (issue_index.py lines 707-794, 1010-1018) -/

/-- Python substring test `needle in hay`. -/
def pyIn (needle hay : String) : Bool := containsSub hay.data needle.data

/-- The linked-story test of `analyze_coverage` (issue_index.py lines
739-744). -/
def isLinkedStory (specNum : ℕ) (storyBody : String) : Bool :=
  pyIn ("Parent Spec: #" ++ toString specNum) storyBody ||
    pyIn ("parent_spec: " ++ toString specNum) storyBody ||
    pyIn ("Spec #" ++ toString specNum) storyBody

/-- Round half to even at integer precision: the exact-rational model of
Python `round(x)` on floats. -/
def rhe (q : ℚ) : ℤ :=
  if q - ⌊q⌋ < 1 / 2 then ⌊q⌋
  else if (1 : ℚ) / 2 < q - ⌊q⌋ then ⌊q⌋ + 1
  else if Even ⌊q⌋ then ⌊q⌋ else ⌊q⌋ + 1

/-- Python `round(x, 1)` modelled exactly over the rationals. -/
def round1 (q : ℚ) : ℚ := (rhe (q * 10) : ℚ) / 10

structure SpecCoverage where
  requirements : ℕ
  stories : ℕ
  coverage_percent : ℚ
  uncovered : ℕ
deriving Repr, DecidableEq

/-- The per-spec entry of `results["coverage_by_spec"]` in
`analyze_coverage` (issue_index.py lines 732-764). -/
def specCoverage (spec : Issue) (stories : List Issue) : SpecCoverage :=
  let reqCount := countRequirements spec.body
  let linked := (stories.filter (fun st => isLinkedStory spec.number st.body)).length
  let covered := min linked reqCount
  { requirements := reqCount
    stories := linked
    coverage_percent :=
      if 0 < reqCount then round1 ((covered : ℚ) / (reqCount : ℚ) * 100) else 100
    uncovered := reqCount - covered }

inductive Severity
  | CRITICAL
  | HIGH
  | MEDIUM
  | LOW
deriving Repr, DecidableEq

/-- The coverage-gap finding `generate_analysis_report` raises for one
spec's coverage entry (issue_index.py lines 1010-1018). -/
def coverageGapFinding (c : SpecCoverage) : Option Severity :=
  if c.coverage_percent < 100 then
    some (if c.coverage_percent < 50 then Severity.HIGH else Severity.MEDIUM)
  else none

theorem rhe_ge_floor (q : ℚ) : ⌊q⌋ ≤ rhe q := by
  unfold rhe
  split_ifs <;> omega

theorem rhe_le_floor_succ (q : ℚ) : rhe q ≤ ⌊q⌋ + 1 := by
  unfold rhe
  split_ifs <;> omega

theorem rhe_eq_succ_imp (q : ℚ) (h : rhe q = ⌊q⌋ + 1) : 1 / 2 ≤ q - ⌊q⌋ := by
  unfold rhe at h
  split_ifs at h with h1 h2 h3
  · omega
  · linarith
  · linarith
  · linarith

theorem rhe_eq_floor_imp (q : ℚ) (h : rhe q = ⌊q⌋) : q - ⌊q⌋ ≤ 1 / 2 := by
  unfold rhe at h
  split_ifs at h with h1 h2 h3
  · linarith
  · omega
  · linarith
  · omega

theorem rhe_mono {q r : ℚ} (h : q ≤ r) : rhe q ≤ rhe r := by
  by_contra hcon
  push_neg at hcon
  have hf : ⌊q⌋ ≤ ⌊r⌋ := Int.floor_le_floor h
  have h1 : ⌊r⌋ ≤ rhe r := rhe_ge_floor r
  have h2 : rhe q ≤ ⌊q⌋ + 1 := rhe_le_floor_succ q
  have heq : ⌊q⌋ = ⌊r⌋ := by omega
  have hrq : rhe q = ⌊q⌋ + 1 := by
    have := rhe_ge_floor q
    omega
  have hrr : rhe r = ⌊r⌋ := by
    have := rhe_le_floor_succ r
    omega
  have ha := rhe_eq_succ_imp q hrq
  have hb := rhe_eq_floor_imp r hrr
  have hqr : q = r := by
    rw [heq] at ha
    have : (⌊r⌋ : ℚ) + 1 / 2 ≤ q := by linarith
    have : r ≤ (⌊r⌋ : ℚ) + 1 / 2 := by linarith
    linarith
  rw [hqr] at hcon
  exact lt_irrefl _ hcon

theorem round1_mono {q r : ℚ} (h : q ≤ r) : round1 q ≤ round1 r := by
  unfold round1
  have h10 : q * 10 ≤ r * 10 := by linarith
  have := rhe_mono h10
  have hc : ((rhe (q * 10) : ℚ)) ≤ ((rhe (r * 10) : ℚ)) := by exact_mod_cast this
  linarith

/-- The spec issue of Scenario A: a `## Requirements` section with three
checkbox items. -/
def scenarioSpec : Issue :=
  ⟨7, "[Spec] S", "## Requirements\n- [ ] a\n- [ ] b\n- [ ] c", [], "open"⟩

theorem countRequirements_scenario : countRequirements scenarioSpec.body = 3 := by
  decide

theorem round1_zero : round1 0 = 0 := by
  norm_num [round1, rhe]

/-- Evaluation of the Scenario A coverage entry. -/
theorem scenarioCoverage_eval :
    specCoverage scenarioSpec [] =
      { requirements := 3, stories := 0, coverage_percent := 0, uncovered := 3 } := by
  simp only [specCoverage, List.filter_nil, List.length_nil, countRequirements_scenario]
  rw [if_pos (by norm_num)]
  norm_num [round1_zero]

/-- C1 (amended): for every spec issue, the reported coverage percent is
`min(linked, requirements) / requirements * 100` rounded half-to-even to
one decimal (Python `round(x, 1)`), or 100 when the spec has zero
requirements; a coverage_gap finding is raised iff the reported percent is
below 100, with severity HIGH when it is below 50 and MEDIUM otherwise;
Scenario A (3 checkbox requirements, no linked stories) reports percent
0.0, uncovered 3, and one HIGH coverage_gap finding. -/
theorem analyze_coverage_spec (spec : Issue) (stories : List Issue) :
    ((specCoverage spec stories).requirements = 0 →
      (specCoverage spec stories).coverage_percent = 100) ∧
    (0 < (specCoverage spec stories).requirements →
      (specCoverage spec stories).coverage_percent =
        round1 ((min (specCoverage spec stories).stories
            (specCoverage spec stories).requirements : ℚ) /
          ((specCoverage spec stories).requirements : ℚ) * 100)) ∧
    (coverageGapFinding (specCoverage spec stories) = none ↔
      (100 : ℚ) ≤ (specCoverage spec stories).coverage_percent) ∧
    ((specCoverage spec stories).coverage_percent < 100 →
      coverageGapFinding (specCoverage spec stories) =
        some (if (specCoverage spec stories).coverage_percent < 50
          then Severity.HIGH else Severity.MEDIUM)) ∧
    (specCoverage scenarioSpec [] =
        { requirements := 3, stories := 0, coverage_percent := 0, uncovered := 3 } ∧
      coverageGapFinding (specCoverage scenarioSpec []) = some Severity.HIGH) := by
  refine ⟨?_, ?_, ?_, ?_, scenarioCoverage_eval, ?_⟩
  · intro h0
    simp only [specCoverage] at h0 ⊢
    rw [if_neg (by omega)]
  · intro hpos
    simp only [specCoverage] at hpos ⊢
    rw [if_pos hpos]
    norm_cast
  · simp only [coverageGapFinding]
    split_ifs with h
    · constructor
      · intro hc
        exact absurd hc (by simp)
      · intro hc
        linarith
    · constructor
      · intro _
        linarith [not_lt.mp h]
      · intro _
        rfl
  · intro h
    simp only [coverageGapFinding]
    rw [if_pos h]
  · rw [scenarioCoverage_eval]
    simp only [coverageGapFinding]
    norm_num

/-- Witness for `analyze_coverage_spec`: the concrete Scenario A instance,
discharging the hypotheses at spec `scenarioSpec` with no stories. -/
theorem analyze_coverage_spec_witness :
    (specCoverage scenarioSpec []).coverage_percent =
        round1 ((min (specCoverage scenarioSpec []).stories
            (specCoverage scenarioSpec []).requirements : ℚ) /
          ((specCoverage scenarioSpec []).requirements : ℚ) * 100) ∧
      coverageGapFinding (specCoverage scenarioSpec []) =
        some (if (specCoverage scenarioSpec []).coverage_percent < 50
          then Severity.HIGH else Severity.MEDIUM) :=
  ⟨(analyze_coverage_spec scenarioSpec []).2.1
      (by rw [scenarioCoverage_eval]; norm_num),
   (analyze_coverage_spec scenarioSpec []).2.2.2.1
      (by rw [scenarioCoverage_eval]; norm_num)⟩

/-- The story linked to `scenarioSpec` used in the rounding counterexample. -/
def linkedStory : Issue := ⟨9, "[Story] s", "Parent Spec: #7", [], "open"⟩

/-- C1 counterexample to the claim as stated: with 3 requirements and one
linked story the reported coverage percent is 33.3 (rounded to one
decimal), which differs from `min(1, 3) / 3 * 100 = 100/3`. -/
theorem analyze_coverage_rounding_cex :
    (specCoverage scenarioSpec [linkedStory]).coverage_percent = 333 / 10 ∧
      (specCoverage scenarioSpec [linkedStory]).stories = 1 ∧
      (specCoverage scenarioSpec [linkedStory]).requirements = 3 ∧
      ((333 : ℚ) / 10) ≠ (min 1 3 : ℚ) / 3 * 100 := by
  have hfil : (List.filter (fun st => isLinkedStory scenarioSpec.number st.body)
      [linkedStory]).length = 1 := by decide
  refine ⟨?_, ?_, ?_, by norm_num⟩
  · simp only [specCoverage, hfil, countRequirements_scenario]
    rw [if_pos (by norm_num)]
    norm_num [round1, rhe]
  · simp only [specCoverage, hfil]
  · simp only [specCoverage, countRequirements_scenario]

/-- C7: for a spec with `linked < requirements`, adding one more linked
story never decreases the reported coverage percent. -/
theorem coverage_monotone (spec : Issue) (stories : List Issue) (st : Issue)
    (hlink : isLinkedStory spec.number st.body = true)
    (hlt : (specCoverage spec stories).stories <
      (specCoverage spec stories).requirements) :
    (specCoverage spec stories).coverage_percent ≤
      (specCoverage spec (stories ++ [st])).coverage_percent := by
  simp only [specCoverage] at hlt ⊢
  have hfil : (List.filter (fun s => isLinkedStory spec.number s.body) (stories ++ [st])).length
      = (List.filter (fun s => isLinkedStory spec.number s.body) stories).length + 1 := by
    rw [List.filter_append]
    simp [hlink]
  rw [hfil]
  set L := (List.filter (fun s => isLinkedStory spec.number s.body) stories).length with hL
  set R := countRequirements spec.body with hR
  have hpos : 0 < R := lt_of_le_of_lt (Nat.zero_le _) hlt
  rw [if_pos hpos, if_pos hpos]
  apply round1_mono
  have hmin : ((min L R : ℕ) : ℚ) ≤ ((min (L + 1) R : ℕ) : ℚ) := by
    have h1 : min L R ≤ min (L + 1) R := by omega
    exact_mod_cast h1
  have hRpos : (0 : ℚ) < (R : ℚ) := by exact_mod_cast hpos
  have hdiv : ((min L R : ℕ) : ℚ) / (R : ℚ) ≤ ((min (L + 1) R : ℕ) : ℚ) / (R : ℚ) :=
    (div_le_div_iff_of_pos_right hRpos).mpr hmin
  linarith

/-- Witness for `coverage_monotone`: Scenario A's spec gains its first
linked story. -/
theorem coverage_monotone_witness :
    isLinkedStory scenarioSpec.number linkedStory.body = true ∧
      (specCoverage scenarioSpec []).stories <
        (specCoverage scenarioSpec []).requirements ∧
      (specCoverage scenarioSpec []).coverage_percent ≤
        (specCoverage scenarioSpec [linkedStory]).coverage_percent :=
  ⟨by decide, by decide,
   coverage_monotone scenarioSpec [] linkedStory (by decide) (by decide)⟩

/-! ## Hierarchy safety lemmas (for claim C3) -/

theorem iterUp_one (issues : List Issue) (j : ℕ) :
    iterUp issues 1 j = attachedTo issues j := by
  cases h : attachedTo issues j <;> simp [iterUp, h]

theorem iterUp_add (issues : List Issue) (a b j : ℕ) :
    iterUp issues (a + b) j =
      (iterUp issues a j).bind (fun x => iterUp issues b x) := by
  induction a generalizing j with
  | zero => simp [iterUp]
  | succ a ih =>
    rw [Nat.succ_add]
    show iterUp issues (a + b + 1) j = _
    cases h : attachedTo issues j with
    | none => simp [iterUp, h]
    | some p => simp [iterUp, h, ih p]

theorem iterUp_none_absorb (issues : List Issue) {t s j : ℕ}
    (h : iterUp issues t j = none) (hts : t ≤ s) : iterUp issues s j = none := by
  have hs : s = t + (s - t) := by omega
  rw [hs, iterUp_add, h]
  rfl

/-- The parent chain from `j` eventually runs out (reaches an index with no
attached parent). -/
def Terminates (issues : List Issue) (j : ℕ) : Prop :=
  ∃ k, iterUp issues k j = none

theorem terminates_rank_pos (issues : List Issue) {j : ℕ} (h : Terminates issues j) :
    0 < Nat.find h := by
  rcases Nat.eq_zero_or_pos (Nat.find h) with h0 | hp
  · have := Nat.find_spec h
    rw [h0] at this
    simp [iterUp] at this
  · exact hp

theorem lastIdxOf_lt (issues : List Issue) {n p : ℕ}
    (h : lastIdxOf issues n = some p) : p < issues.length := by
  unfold lastIdxOf at h
  have hmem := List.mem_of_getLast?_eq_some h
  have := List.mem_filter.mp hmem
  exact List.mem_range.mp this.1

theorem attachedTo_lt (issues : List Issue) {j p : ℕ}
    (h : attachedTo issues j = some p) : p < issues.length := by
  unfold attachedTo at h
  cases hg : issues.get? j with
  | none =>
    simp only [hg] at h
    simp at h
  | some i =>
    simp only [hg] at h
    cases ha : attachedParent issues i with
    | none =>
      simp only [ha] at h
      simp at h
    | some q =>
      simp only [ha] at h
      exact lastIdxOf_lt issues h

theorem iterUp_some_lt (issues : List Issue) :
    ∀ (k j x : ℕ), iterUp issues (k + 1) j = some x → x < issues.length := by
  intro k
  induction k with
  | zero =>
    intro j x h
    rw [iterUp_one] at h
    exact attachedTo_lt issues h
  | succ k ih =>
    intro j x h
    show x < issues.length
    cases ha : attachedTo issues j with
    | none => simp [iterUp, ha] at h
    | some p =>
      have h' : iterUp issues (k + 1) p = some x := by
        simpa [iterUp, ha] using h
      exact ih p x h'

theorem terminates_of_attached (issues : List Issue) {c i : ℕ}
    (hc : attachedTo issues c = some i) (hi : Terminates issues i) :
    Terminates issues c := by
  obtain ⟨k, hk⟩ := hi
  exact ⟨k + 1, by simpa [iterUp, hc] using hk⟩

theorem rank_of_attached (issues : List Issue) {c i : ℕ}
    (hc : attachedTo issues c = some i) (hi : Terminates issues i)
    (hct : Terminates issues c) : Nat.find hct = Nat.find hi + 1 := by
  rw [Nat.find_eq_iff]
  constructor
  · simpa [iterUp, hc] using Nat.find_spec hi
  · intro m hm
    cases m with
    | zero => simp [iterUp]
    | succ m' =>
      have hm' : m' < Nat.find hi := by omega
      have := Nat.find_min hi hm'
      simpa [iterUp, hc] using this

theorem rank_le_length (issues : List Issue) {j : ℕ}
    (hj : Terminates issues j) (hjN : j < issues.length) :
    Nat.find hj ≤ issues.length := by
  by_contra hgt
  push_neg at hgt
  set N := issues.length with hN
  set R := Nat.find hj with hR
  have hsome : ∀ pos : Fin R, (iterUp issues pos.val j).isSome := by
    intro pos
    have := Nat.find_min hj pos.isLt
    exact Option.ne_none_iff_isSome.mp this
  have hlt : ∀ pos : Fin R, (iterUp issues pos.val j).get (hsome pos) < N := by
    intro pos
    rcases pos with ⟨pv, hpv⟩
    cases pv with
    | zero =>
      simp only [iterUp, Option.get_some]
      exact hjN
    | succ m =>
      apply iterUp_some_lt issues m j
      exact (Option.some_get _).symm
  let f : Fin R → Fin N := fun pos => ⟨(iterUp issues pos.val j).get (hsome pos), hlt pos⟩
  obtain ⟨a, b, hne, hfeq⟩ :=
    Fintype.exists_ne_map_eq_of_card_lt f (by simpa using hgt)
  have hval : (iterUp issues a.val j).get (hsome a) = (iterUp issues b.val j).get (hsome b) := by
    have := congrArg Fin.val hfeq
    simpa [f] using this
  have key : ∀ u v : Fin R, u.val < v.val →
      (iterUp issues u.val j).get (hsome u) = (iterUp issues v.val j).get (hsome v) →
      False := by
    intro u v huv heq
    have hiu : iterUp issues u.val j = some ((iterUp issues u.val j).get (hsome u)) :=
      (Option.some_get _).symm
    have hiv : iterUp issues v.val j = some ((iterUp issues u.val j).get (hsome u)) := by
      rw [heq]
      exact (Option.some_get _).symm
    set x := (iterUp issues u.val j).get (hsome u) with hx
    have hrn : iterUp issues R j = none := Nat.find_spec hj
    have hsplit : iterUp issues (R - v.val) x = none := by
      have hfull : iterUp issues (v.val + (R - v.val)) j = none := by
        rw [show v.val + (R - v.val) = R by omega]
        exact hrn
      rw [iterUp_add, hiv] at hfull
      simpa using hfull
    have hshort : iterUp issues (u.val + (R - v.val)) j = none := by
      rw [iterUp_add, hiu]
      simpa using hsplit
    have hlt2 : u.val + (R - v.val) < R := by
      have := v.isLt
      omega
    exact Nat.find_min hj hlt2 hshort
  rcases Nat.lt_or_ge a.val b.val with hab | hba
  · exact key a b hab hval
  · rcases Nat.lt_or_ge b.val a.val with hab2 | hba2
    · exact key b a hab2 hval.symm
    · exact hne (Fin.val_injective (by omega))

theorem omap_isSome {f : ℕ → Option ℕ} :
    ∀ {l : List ℕ}, (∀ x ∈ l, (f x).isSome) → (omap f l).isSome := by
  intro l
  induction l with
  | nil => intro _; simp [omap]
  | cons x t ih =>
    intro h
    have hx := h x (List.mem_cons_self x t)
    have ht := ih (fun y hy => h y (List.mem_cons_of_mem x hy))
    simp only [omap]
    cases hfx : f x with
    | none => rw [hfx] at hx; simp at hx
    | some a =>
      cases hot : omap f t with
      | none => rw [hot] at ht; simp at ht
      | some b => simp

theorem mem_childrenIdx (issues : List Issue) {c i : ℕ}
    (h : c ∈ childrenIdx issues i) :
    attachedTo issues c = some i ∧ c < issues.length := by
  have := List.mem_filter.mp h
  refine ⟨?_, List.mem_range.mp this.1⟩
  have := this.2
  simpa using this

theorem countChildren_isSome (issues : List Issue) :
    ∀ (fuel j : ℕ) (hj : Terminates issues j), j < issues.length →
      issues.length + 2 ≤ fuel + Nat.find hj →
      (countChildren issues fuel j).isSome := by
  intro fuel
  induction fuel with
  | zero =>
    intro j hj hjN hle
    have := rank_le_length issues hj hjN
    omega
  | succ fuel ih =>
    intro j hj hjN hle
    have hall : ∀ c ∈ childrenIdx issues j, (countChildren issues fuel c).isSome := by
      intro c hc
      obtain ⟨hat, hcN⟩ := mem_childrenIdx issues hc
      have hct : Terminates issues c := terminates_of_attached issues hat hj
      have hrk : Nat.find hct = Nat.find hj + 1 := rank_of_attached issues hat hj hct
      exact ih c hct hcN (by omega)
    have := omap_isSome hall
    simp only [countChildren]
    cases homap : omap (countChildren issues fuel) (childrenIdx issues j) with
    | none => rw [homap] at this; simp at this
    | some s => simp

theorem mem_rootsIdx (issues : List Issue) {r : ℕ} (hr : r ∈ rootsIdx issues) :
    r < issues.length ∧ attachedTo issues r = none := by
  have hf := List.mem_filter.mp hr
  refine ⟨List.mem_range.mp hf.1, ?_⟩
  have hp := hf.2
  cases hg : issues.get? r with
  | none => rw [hg] at hp; simp at hp
  | some i =>
    rw [hg] at hp
    simp only [Bool.and_eq_true, beq_iff_eq] at hp
    unfold attachedTo
    simp only [hg, hp.1]

/-- C3: for every finite input issue list — including self-parent and
multi-issue parent cycles — every hierarchy root supports a complete
recursive child count within `length + 1` nested levels (the traversal
terminates), and no issue reachable from a root is its own proper ancestor
in the constructed parent/children graph. -/
theorem build_hierarchy_no_cycles (issues : List Issue) :
    ∀ r ∈ rootsIdx issues,
      (countChildren issues (issues.length + 1) r).isSome = true ∧
      ∀ j k, (∃ m, iterUp issues m j = some r) → 1 ≤ k →
        iterUp issues k j ≠ some j := by
  intro r hr
  obtain ⟨hrN, hAtt⟩ := mem_rootsIdx issues hr
  have hTerm : Terminates issues r := ⟨1, by rw [iterUp_one]; exact hAtt⟩
  have hrank : Nat.find hTerm = 1 := by
    rw [Nat.find_eq_iff]
    refine ⟨by rw [iterUp_one]; exact hAtt, ?_⟩
    intro m hm
    have : m = 0 := by omega
    subst this
    simp [iterUp]
  constructor
  · exact countChildren_isSome issues (issues.length + 1) r hTerm hrN (by omega)
  · rintro j k ⟨m, hm⟩ hk hcon
    have hTj : Terminates issues j := by
      refine ⟨m + 1, ?_⟩
      rw [iterUp_add, hm]
      show iterUp issues 1 r = none
      rw [iterUp_one]
      exact hAtt
    have hper : ∀ t, iterUp issues (t * k) j = some j := by
      intro t
      induction t with
      | zero => simp [iterUp]
      | succ t iht =>
        rw [Nat.succ_mul, iterUp_add, iht]
        exact hcon
    have hnone : iterUp issues (Nat.find hTj) j = none := Nat.find_spec hTj
    have habs : iterUp issues (Nat.find hTj * k) j = none := by
      apply iterUp_none_absorb issues hnone
      have h1 : Nat.find hTj * 1 ≤ Nat.find hTj * k := Nat.mul_le_mul_left _ hk
      omega
    rw [hper (Nat.find hTj)] at habs
    exact absurd habs (by simp)

/-- A concrete issue list whose parent references form a two-issue cycle
(issues 2 and 3 declare each other as parent) next to a well-formed root
epic. -/
def issuesW : List Issue :=
  [⟨1, "[Epic] Root", "", [], "open"⟩,
   ⟨2, "x", "Parent Epic: #3", ["epic"], "open"⟩,
   ⟨3, "y", "Parent Epic: #2", [], "open"⟩]

/-- Witness for `build_hierarchy_no_cycles` on a cyclic input: the cycle is
real (`attachedTo` maps 1 and 2 to each other), the root's recursive child
count completes, and the root is not its own ancestor. -/
theorem build_hierarchy_no_cycles_witness :
    attachedTo issuesW 1 = some 2 ∧ attachedTo issuesW 2 = some 1 ∧
      0 ∈ rootsIdx issuesW ∧
      (countChildren issuesW (issuesW.length + 1) 0).isSome = true ∧
      iterUp issuesW 1 0 ≠ some 0 :=
  ⟨by decide, by decide, by decide,
   (build_hierarchy_no_cycles issuesW 0 (by decide)).1,
   (build_hierarchy_no_cycles issuesW 0 (by decide)).2 0 1 ⟨0, rfl⟩ (by decide)⟩

/-- C4: `_extract_parent_number` tries the five patterns in the fixed
priority order — Parent Epic, Parent Spec, Parent Story, Related Issue,
Parent — returning the leftmost match of the first pattern that matches
anywhere in the body, regardless of the textual positions of the matches;
it returns `none` when no pattern matches; in particular a body with
`Related Issue: #5` before `Parent Epic: #9` resolves to 9. -/
theorem extractParent_priority (body : String) :
    (∀ n, searchPat "parent epic:".data body.data = some n →
      extractParentNumber body = some n) ∧
    (searchPat "parent epic:".data body.data = none →
      ∀ n, searchPat "parent spec:".data body.data = some n →
        extractParentNumber body = some n) ∧
    (searchPat "parent epic:".data body.data = none →
      searchPat "parent spec:".data body.data = none →
      ∀ n, searchPat "parent story:".data body.data = some n →
        extractParentNumber body = some n) ∧
    (searchPat "parent epic:".data body.data = none →
      searchPat "parent spec:".data body.data = none →
      searchPat "parent story:".data body.data = none →
      ∀ n, searchPat "related issue:".data body.data = some n →
        extractParentNumber body = some n) ∧
    (searchPat "parent epic:".data body.data = none →
      searchPat "parent spec:".data body.data = none →
      searchPat "parent story:".data body.data = none →
      searchPat "related issue:".data body.data = none →
      ∀ n, searchPat "parent:".data body.data = some n →
        extractParentNumber body = some n) ∧
    (searchPat "parent epic:".data body.data = none →
      searchPat "parent spec:".data body.data = none →
      searchPat "parent story:".data body.data = none →
      searchPat "related issue:".data body.data = none →
      searchPat "parent:".data body.data = none →
      extractParentNumber body = none) ∧
    extractParentNumber "Related Issue: #5\nParent Epic: #9" = some 9 := by
  refine ⟨?_, ?_, ?_, ?_, ?_, ?_, by decide⟩
  · intro n h1
    simp [extractParentNumber, patLabels, firstMatch, h1]
  · intro h1 n h2
    simp [extractParentNumber, patLabels, firstMatch, h1, h2]
  · intro h1 h2 n h3
    simp [extractParentNumber, patLabels, firstMatch, h1, h2, h3]
  · intro h1 h2 h3 n h4
    simp [extractParentNumber, patLabels, firstMatch, h1, h2, h3, h4]
  · intro h1 h2 h3 h4 n h5
    simp [extractParentNumber, patLabels, firstMatch, h1, h2, h3, h4, h5]
  · intro h1 h2 h3 h4 h5
    simp [extractParentNumber, patLabels, firstMatch, h1, h2, h3, h4, h5]

/-- Witness for `extractParent_priority`: the priority order beats document
order on the concrete two-reference body. -/
theorem extractParent_priority_witness :
    searchPat "parent epic:".data
        ("Related Issue: #5\nParent Epic: #9" : String).data = some 9 ∧
      extractParentNumber "Related Issue: #5\nParent Epic: #9" = some 9 :=
  ⟨by decide,
   (extractParent_priority "Related Issue: #5\nParent Epic: #9").1 9 (by decide)⟩

/-! ## Draft parsing and validation (draft_manager.py lines 271-363)

`parse_draft` splits the post-frontmatter body into `##`-headed sections
(dict semantics: a repeated heading overwrites the earlier content);
`validate_draft` then checks required sections, body-wide placeholder
markers, and the spec parent linkage. -/

/-- `line.startswith("## ")`. -/
def isSectionHeading (l : List Char) : Bool := "## ".data.isPrefixOf l

/-- The section-collection loop of `parse_draft` (draft_manager.py lines
295-309); the accumulator holds the current section's lines in reverse. -/
def collectSections : List (List Char) → Option (List Char) → List (List Char) →
    List (List Char × List Char)
  | [], cur, acc =>
    match cur with
    | some name => [(name, pyStrip (joinNL acc.reverse))]
    | none => []
  | line :: rest, cur, acc =>
    if isSectionHeading line then
      (match cur with
       | some name => [(name, pyStrip (joinNL acc.reverse))]
       | none => []) ++ collectSections rest (some (pyStrip (line.drop 3))) []
    else
      match cur with
      | some _ => collectSections rest cur (line :: acc)
      | none => collectSections rest cur acc

/-- The `sections` mapping of `parse_draft`, as an ordered list of
(name, content) pairs; duplicate names keep dict semantics through
`secLookup`. -/
def sectionsOf (body : String) : List (List Char × List Char) :=
  collectSections (splitNL body.data) none []

/-- Dict lookup: the value of the *last* assignment to `name`. -/
def secLookup (secs : List (List Char × List Char)) (name : List Char) :
    Option (List Char) :=
  ((secs.filter (fun p => p.1 == name)).getLast?).map (fun p => p.2)

/-- `REQUIRED_SECTIONS` (draft_manager.py lines 19-22), via
`REQUIRED_SECTIONS.get(draft_type, [])`. -/
def requiredSections (t : String) : List String :=
  if t = "spec" then ["Overview", "Requirements", "Acceptance Criteria"]
  else if t = "plan" then ["Implementation Approach", "Stories"]
  else []

/-- The frontmatter fields `validate_draft` consults; `parent_epic` is
modelled as an optional integer (Python truthiness: `None` and `0` are
falsy). -/
structure DraftFM where
  dtype : Option String
  parent_epic : Option Int
deriving Repr, DecidableEq

def truthyInt : Option Int → Bool
  | none => false
  | some n => !(n == 0)

structure ValidationResult where
  passed : Bool
  issues : List String
deriving Repr, DecidableEq

def clarifyMsg : String := "Contains [NEEDS CLARIFICATION] markers - run /jcttech.clarify"

/-- `validate_draft` (draft_manager.py lines 319-363), over the parsed
frontmatter and post-frontmatter body. -/
def validateDraft (fm : DraftFM) (body : String) : ValidationResult :=
  let draftType := fm.dtype.getD "spec"
  let secs := sectionsOf body
  let sectionIssues := ((requiredSections draftType).map (fun sec =>
    match secLookup secs sec.data with
    | none => ["Missing required section: " ++ sec]
    | some content =>
      if content.isEmpty || "[".data.isPrefixOf content then
        ["Section '" ++ sec ++ "' needs content"]
      else [])).flatten
  let issues2 := sectionIssues ++
    (if pyIn "[NEEDS CLARIFICATION]" body then [clarifyMsg] else [])
  let issues3 := issues2 ++
    (if pyIn "[Requirement" body || pyIn "[Criterion" body then
      ["Contains placeholder requirements or criteria"] else [])
  let issues4 := issues3 ++
    (if draftType = "spec" && !truthyInt fm.parent_epic then
      ["No parent Epic specified - select or create an Epic first"] else [])
  { passed := issues4.isEmpty, issues := issues4 }

/-- C5: `validate_draft` passes exactly when its issues list is empty, and
a body containing the literal `[NEEDS CLARIFICATION]` marker always fails
with an issue string mentioning the marker, regardless of the other
checks. -/
theorem validateDraft_spec (fm : DraftFM) (body : String) :
    ((validateDraft fm body).passed = true ↔ (validateDraft fm body).issues = []) ∧
    (pyIn "[NEEDS CLARIFICATION]" body = true →
      (validateDraft fm body).passed = false ∧
        clarifyMsg ∈ (validateDraft fm body).issues) := by
  constructor
  · simp [validateDraft, List.isEmpty_iff]
  · intro h
    have hmem : clarifyMsg ∈ (validateDraft fm body).issues := by
      simp [validateDraft, h]
    refine ⟨?_, hmem⟩
    have hne : (validateDraft fm body).issues ≠ [] := List.ne_nil_of_mem hmem
    simp only [validateDraft] at hne ⊢
    simpa [List.isEmpty_iff] using hne

/-- The body used in the C5 witness: all required spec sections present and
filled, plus a clarification marker. -/
def clarifyBody : String :=
  "## Overview\nfine\n## Requirements\n- [ ] a\n## Acceptance Criteria\n- [ ] b\n[NEEDS CLARIFICATION]"

/-- Witness for `validateDraft_spec` at a concrete draft whose required
sections are complete but whose body holds the clarification marker. -/
theorem validateDraft_spec_witness :
    pyIn "[NEEDS CLARIFICATION]" clarifyBody = true ∧
      (validateDraft ⟨some "spec", some 12⟩ clarifyBody).passed = false ∧
      clarifyMsg ∈ (validateDraft ⟨some "spec", some 12⟩ clarifyBody).issues :=
  ⟨by decide,
   ((validateDraft_spec ⟨some "spec", some 12⟩ clarifyBody).2 (by decide)).1,
   ((validateDraft_spec ⟨some "spec", some 12⟩ clarifyBody).2 (by decide)).2⟩

/-! ## Title mapping (draft_manager.py lines 412-418) -/

/-- `title_text.split(":", 1)[-1]`: everything after the first colon, or
the whole string when there is none. -/
def afterColonAux : List Char → List Char → List Char
  | [], orig => orig
  | c :: t, orig => if c = ':' then t else afterColonAux t orig

def afterColonLast (l : List Char) : List Char := afterColonAux l l

/-- The title construction of `map_draft_to_issue_fields`
(draft_manager.py lines 412-418). -/
def buildIssueTitle (draftType : String) (titleText : String) : String :=
  if !(draftType.data.isPrefixOf (lowerStr titleText.data)) then
    "[" ++ String.mk (pyCapitalize draftType.data) ++ "] " ++ titleText
  else
    "[" ++ String.mk (pyCapitalize draftType.data) ++ "] " ++
      String.mk (pyStrip (afterColonLast titleText.data))

/-- Number of positions at which `needle` occurs in `hay`. -/
def countPrefixPos : List Char → List Char → ℕ
  | [], _ => 0
  | c :: t, needle =>
    (if needle.isPrefixOf (c :: t) then 1 else 0) + countPrefixPos t needle

/-- C6 counterexample to the claim as stated: a stored title that already
carries the bracketed prefix `[Spec]` does not start with the type *name*,
so the prefix is prepended again and occurs twice in the output. -/
theorem buildIssueTitle_duplicated_cex :
    buildIssueTitle "spec" "[Spec] Foo" = "[Spec] [Spec] Foo" ∧
      countPrefixPos ("[Spec] [Spec] Foo" : String).data "[Spec]".data = 2 := by
  constructor
  · rfl
  · decide

/-- C6 (amended): the mapped title always begins with the bracketed
capitalized type prefix, and a stored title that starts with the type name
followed by a colon (`Spec: X` / `Plan: X`) has that prefix stripped and
replaced rather than duplicated; titles not starting with the type name —
including ones already carrying a bracketed `[Spec]` prefix — are kept
whole, so the bracketed prefix can then occur twice. -/
theorem buildIssueTitle_prefix_spec (dtype : String)
    (hd : dtype = "spec" ∨ dtype = "plan") (t r : String) :
    (∃ rest : String, buildIssueTitle dtype t =
      "[" ++ String.mk (pyCapitalize dtype.data) ++ "] " ++ rest) ∧
    buildIssueTitle dtype (String.mk (pyCapitalize dtype.data) ++ ": " ++ r) =
      "[" ++ String.mk (pyCapitalize dtype.data) ++ "] " ++
        String.mk (pyStrip r.data) := by
  constructor
  · unfold buildIssueTitle
    split
    · exact ⟨t, rfl⟩
    · exact ⟨String.mk (pyStrip (afterColonLast t.data)), rfl⟩
  · rcases hd with rfl | rfl
    · rfl
    · rfl

/-- Witness for `buildIssueTitle_prefix_spec` at a concrete spec title. -/
theorem buildIssueTitle_prefix_spec_witness :
    buildIssueTitle "spec" (String.mk (pyCapitalize "spec".data) ++ ": " ++ " Login ") =
      "[" ++ String.mk (pyCapitalize "spec".data) ++ "] " ++
        String.mk (pyStrip (" Login " : String).data) :=
  (buildIssueTitle_prefix_spec "spec" (Or.inl rfl) "x" " Login ").2

/-! ## Draft archiving (draft_manager.py lines 527-568)

`archive_draft` re-reads the draft, stamps `github_issue` / `pushed_at` /
`status: pushed` into its frontmatter when the frontmatter block parses
(`re.match(r"^---\s*\n(.*?)\n---", ...)` plus `yaml.safe_load`), writes the
result to the cache under `{type}-{issue_number}.md`, and only then removes
the original draft.  The YAML library is external to the repository and is
modelled by an explicit environment of parse/dump functions. -/

/-- All splits of the text at an occurrence of `\n---` (the close of the
frontmatter block), leftmost first: each entry is (text before the `\n`,
text after the `---`). -/
def nlDashSplits : List Char → List (List Char × List Char)
  | [] => []
  | c :: t =>
    (if c = '\n' && "---".data.isPrefixOf t then
      [(([] : List Char), t.drop 3)] else []) ++
      (nlDashSplits t).map (fun p => (c :: p.1, p.2))

/-- Candidate capture-start suffixes for the leading `\s*\n`: the text
after each newline of the whitespace run `w`, rightmost newline first
(greedy `\s*` backtracking order). -/
def nlCandidates (w base : List Char) : List (List Char) :=
  (nlCandAux w base).reverse
where
  nlCandAux : List Char → List Char → List (List Char)
    | [], _ => []
    | c :: t, base => (if c = '\n' then [t ++ base] else []) ++ nlCandAux t base

/-- `re.match(r"^---\s*\n(.*?)\n---", content, re.DOTALL)` (draft_manager.py
line 549): returns (group 1, text after the match end). -/
def fmMatchNoTrail (content : List Char) : Option (List Char × List Char) :=
  match content with
  | '-' :: '-' :: '-' :: rest =>
    let w := rest.takeWhile pyWS
    let base := rest.drop w.length
    goCands (nlCandidates w base)
  | _ => none
where
  goCands : List (List Char) → Option (List Char × List Char)
    | [] => none
    | s :: more =>
      match nlDashSplits s with
      | p :: _ => some p
      | [] => goCands more

/-- The trailing `\s*\n` of the parse_draft pattern after the closing
`---`: succeeds when the following whitespace run contains a newline,
consuming through its last newline. -/
def trailCheck (after : List Char) : Option (List Char) :=
  let run := after.takeWhile pyWS
  if run.contains '\n' then
    some ((run.reverse.takeWhile (fun c => !(c == '\n'))).reverse ++
      after.drop run.length)
  else none

/-- `re.match(r"^---\s*\n(.*?)\n---\s*\n", content, re.DOTALL)`
(draft_manager.py line 286): returns (group 1, post-frontmatter body). -/
def fmMatchTrail (content : List Char) : Option (List Char × List Char) :=
  match content with
  | '-' :: '-' :: '-' :: rest =>
    let w := rest.takeWhile pyWS
    let base := rest.drop w.length
    goCandsT (nlCandidates w base)
  | _ => none
where
  goSplits : List (List Char × List Char) → Option (List Char × List Char)
    | [] => none
    | (g, after) :: more =>
      match trailCheck after with
      | some body => some (g, body)
      | none => goSplits more
  goCandsT : List (List Char) → Option (List Char × List Char)
    | [] => none
    | s :: more =>
      match goSplits (nlDashSplits s) with
      | some r => some r
      | none => goCandsT more

/-- The external YAML collaborator: a parser (`none` models a
`yaml.YAMLError`), a dumper, and the current timestamp. -/
structure YamlEnv where
  parse : String → Option (List (String × String))
  dump : List (String × String) → String
  now : String

/-- Python dict assignment `m[k] = v`: update in place or append. -/
def setKey (m : List (String × String)) (k v : String) : List (String × String) :=
  if m.any (fun p => p.1 == k) then
    m.map (fun p => if p.1 == k then (k, v) else p)
  else m ++ [(k, v)]

def lookupKey (m : List (String × String)) (k : String) : Option String :=
  (m.find? (fun p => p.1 == k)).map (fun p => p.2)

/-- The file-system effects `archive_draft` performs, in order. -/
inductive FsOp
  | writeCache (fileName : String) (content : String)
  | unlinkDraft
deriving Repr, DecidableEq

/-- The `draft_type` archive_draft reads through `parse_draft`
(draft_manager.py lines 541-542): `"unknown"` whenever the frontmatter
block is absent or the YAML parse fails. -/
def archiveDraftType (env : YamlEnv) (content : String) : String :=
  match fmMatchTrail content.data with
  | some (g, _) =>
    match env.parse (String.mk g) with
    | some fm => (lookupKey fm "type").getD "unknown"
    | none => "unknown"
  | none => "unknown"

/-- The cache file name `{type}-{issue_number}.md` (line 545). -/
def archiveCacheName (env : YamlEnv) (content : String) (issueNumber : ℕ) : String :=
  archiveDraftType env content ++ "-" ++ toString issueNumber ++ ".md"

/-- The content written to the cache (lines 548-561): the draft with
stamped frontmatter when the block parses, the original content
otherwise. -/
def archiveNewContent (env : YamlEnv) (content : String) (issueNumber : ℕ) : String :=
  match fmMatchNoTrail content.data with
  | some (g, body) =>
    match env.parse (String.mk g) with
    | some fm =>
      "---\n" ++
        env.dump (setKey (setKey (setKey fm "github_issue" (toString issueNumber))
          "pushed_at" env.now) "status" "pushed") ++
        "---" ++ String.mk body
    | none => content
  | none => content

/-- `archive_draft` (draft_manager.py lines 527-568) as its ordered effect
trace on the draft's storage: the cache write (line 563) strictly precedes
the unlink of the original draft (line 566). -/
def archiveDraft (env : YamlEnv) (content : String) (issueNumber : ℕ) : List FsOp :=
  [FsOp.writeCache (archiveCacheName env content issueNumber)
      (archiveNewContent env content issueNumber),
   FsOp.unlinkDraft]

/-- A YAML environment whose parser always fails. -/
def failParseEnv : YamlEnv := ⟨fun _ => none, fun _ => "", "2024-01-01T00:00:00+00:00"⟩

/-- C2 counterexample to the claim as stated: a draft with no frontmatter
block (parsing fails) is still archived — the cache entry is written (with
the original content, under type `unknown`) and the draft is removed. -/
theorem archiveDraft_parse_failure_cex :
    fmMatchTrail ("no frontmatter here" : String).data = none ∧
      fmMatchNoTrail ("no frontmatter here" : String).data = none ∧
      archiveDraft failParseEnv "no frontmatter here" 42 =
        [FsOp.writeCache "unknown-42.md" "no frontmatter here", FsOp.unlinkDraft] ∧
      FsOp.unlinkDraft ∈ archiveDraft failParseEnv "no frontmatter here" 42 := by
  refine ⟨rfl, rfl, rfl, ?_⟩
  rw [show archiveDraft failParseEnv "no frontmatter here" 42 =
    [FsOp.writeCache "unknown-42.md" "no frontmatter here", FsOp.unlinkDraft] from rfl]
  simp

/-- C2 (amended): `archive_draft` always performs exactly one cache write
followed by the removal of the draft — the write is sequenced before the
removal, so a caller never observes the draft removed without the cache
entry written; but when the frontmatter cannot be parsed (no block, or the
YAML parser fails) the operation still proceeds, writing the original
content unchanged to the cache rather than leaving the draft untouched. -/
theorem archiveDraft_write_before_remove (env : YamlEnv) (content : String) (n : ℕ) :
    (archiveDraft env content n =
      [FsOp.writeCache (archiveCacheName env content n)
        (archiveNewContent env content n), FsOp.unlinkDraft]) ∧
    (fmMatchNoTrail content.data = none →
      archiveDraft env content n =
        [FsOp.writeCache (archiveCacheName env content n) content,
         FsOp.unlinkDraft]) ∧
    (∀ g body, fmMatchNoTrail content.data = some (g, body) →
      env.parse (String.mk g) = none →
      archiveDraft env content n =
        [FsOp.writeCache (archiveCacheName env content n) content,
         FsOp.unlinkDraft]) := by
  refine ⟨rfl, ?_, ?_⟩
  · intro h
    simp [archiveDraft, archiveNewContent, h]
  · intro g body hm hp
    simp [archiveDraft, archiveNewContent, hm, hp]

/-- Witness for `archiveDraft_write_before_remove` on a concrete
frontmatterless draft. -/
theorem archiveDraft_write_before_remove_witness :
    archiveDraft failParseEnv "plain body" 7 =
      [FsOp.writeCache (archiveCacheName failParseEnv "plain body" 7) "plain body",
       FsOp.unlinkDraft] :=
  (archiveDraft_write_before_remove failParseEnv "plain body" 7).2.1 (by decide)

end SpecKit
